import Mathlib

/-!
Verification of the `kira` backlight utility (`src/main.rs`).

The development shallowly embeds the three pieces of logic of the program:

* the input interpretation (`parse_input_as_percent`, built on Rust's
  `u8::from_str`, modelled by `fromStrU8`),
* the target calculation (`calculate_target_value`, whose `f32`
  arithmetic is modelled over `ℚ` by `rnF32`, round to nearest with
  24-bit significands; the inputs arising in this program never hit a
  rounding tie, see `rnF32_div100_no_tie`, so the tie-breaking rule is
  irrelevant and a half-up rule is used),
* the stepwise transition loop of `kira` (`runSteps` over an abstract
  device whose per-step outcomes are given by an oracle).

Machine integers `u8`/`u16` are represented as `ℕ` with explicit bounds;
`u16::saturating_add` is `saturatingAdd` (capped at 65535), Rust's
`u16::saturating_sub` coincides with truncated `ℕ` subtraction, and the
saturating float-to-integer cast `as u16` is `f32toU16`.
-/

namespace Kira

/-- Round a nonnegative rational to the nearest `f32`-representable value
(24-bit significand).  `Int.log 2 q` is the binade exponent, so the
representable values around `q` are the integer multiples of
`2 ^ (Int.log 2 q - 23)`.  Ties are rounded half-up; no input arising in
this program is a tie (see `rnF32_div100_no_tie`), so this agrees with
IEEE-754 round-nearest-even on every value the program computes.
Exponents stay far inside the normal range of `f32`, so neither
subnormals nor infinities can arise. -/
def rnF32 (q : ℚ) : ℚ :=
  if q ≤ 0 then 0
  else (⌊q * (2 : ℚ) ^ (23 - Int.log 2 q) + 1 / 2⌋ : ℚ) * (2 : ℚ) ^ (Int.log 2 q - 23)

/-- Conversion `n as f32` of a natural number (exact for `n < 2 ^ 24`). -/
def f32ofNat (n : ℕ) : ℚ := rnF32 (n : ℚ)

/-- Multiplication of two `f32` values: round the exact product. -/
def f32mul (a b : ℚ) : ℚ := rnF32 (a * b)

/-- Division of two `f32` values: round the exact quotient. -/
def f32div (a b : ℚ) : ℚ := rnF32 (a / b)

/-- Rust's saturating cast `as u16` applied to a nonnegative `f32` value:
truncate toward zero, cap at `u16::MAX`. -/
def f32toU16 (q : ℚ) : ℕ := min 65535 (Int.toNat ⌊q⌋)

/-- Rust's `u16::saturating_add` on the `ℕ` representation. -/
def saturatingAdd (a b : ℕ) : ℕ := min 65535 (a + b)

/-- Embedding of `calculate_target_value` (`src/main.rs:141-174`).
`value` is `(max as f32 * percent as f32 / 100.0) as u16`; the
`current.saturating_sub(value)` of the source is `current - value`
(truncated `ℕ` subtraction saturates at zero exactly as `u16` does). -/
def calculate_target_value (signum : Option Bool) (percent current max min : ℕ) : ℕ :=
  let value : ℕ := f32toU16 (f32div (f32mul (f32ofNat max) (f32ofNat percent)) (f32ofNat 100))
  match signum with
  | some positive =>
    let new_value := if positive then saturatingAdd current value else current - value
    if new_value ≥ max then max
    else if new_value ≤ min then min
    else new_value
  | none =>
    if value ≥ max then max
    else if value ≤ min then min
    else value

/-- Numeric value of a list of decimal digit characters (most significant
first), as accumulated by Rust's `from_str_radix` digit loop. -/
def digitsToNat (cs : List Char) : ℕ :=
  cs.foldl (fun a c => 10 * a + (c.toNat - 48)) 0

/-- Strip one leading `+` sign, as Rust's integer `from_str` does for
unsigned targets (a leading `-` is not stripped for `u8` and will fail
the digit check). -/
def stripPlus (cs : List Char) : List Char :=
  match cs with
  | [] => []
  | c :: r => if c = '+' then r else c :: r

/-- Embedding of Rust's `str::parse::<u8>` (`core::num::from_str`):
optionally strip a leading `+`, then require a nonempty run of ASCII
digits whose value fits in `u8`; every failure (empty input, invalid
digit, overflow) is collapsed to `none`. -/
def fromStrU8 (cs : List Char) : Option ℕ :=
  if !(stripPlus cs).isEmpty && (stripPlus cs).all Char.isDigit then
    if digitsToNat (stripPlus cs) ≤ 255 then some (digitsToNat (stripPlus cs)) else none
  else none

/-- Embedding of `parse_input_as_percent` (`src/main.rs:119-127`).
`input.starts_with(c)` is "the first character is `c`", and `input[1..]`
is the tail of the character list (`+` and `-` are one byte).  The Rust
signum `Option<bool>` is kept as `Option Bool` (`some true` = increase,
`some false` = decrease, `none` = absolute). -/
def parse_input_as_percent (input : String) : Option (Option Bool × ℕ) :=
  if input.data.head? = some '+' then
    (fromStrU8 input.data.tail).map fun p => (some true, p)
  else if input.data.head? = some '-' then
    (fromStrU8 input.data.tail).map fun p => (some false, p)
  else
    (fromStrU8 input.data).map fun p => (none, p)

/-- Target selection of `kira` (`src/main.rs:86-97`): with an argument,
parse it and run the calculator; with no argument the target is the
device's maximum brightness.  A parse failure propagates (`none`). -/
def kiraTarget (arg : Option String) (current max min : ℕ) : Option ℕ :=
  match arg with
  | some input =>
    (parse_input_as_percent input).map fun sp =>
      calculate_target_value sp.1 sp.2 current max min
  | none => some max

/-- Byte content of the brightness device file. -/
structure FileState where
  content : String
deriving Repr, DecidableEq

/-- Effect of `File::create` (`src/main.rs:99`): the file is truncated. -/
def fileCreate : FileState := ⟨""⟩

/-- Effect of a successful `file.write_all(value.to_string().as_bytes())`
(`src/main.rs:113`): the decimal representation is appended at the
cursor of the single handle (which is never seeked or re-truncated). -/
def write_all (f : FileState) (value : ℕ) : FileState :=
  ⟨f.content ++ toString value⟩

/-- Outcome of one `write_to_file_and_wait` call, decided by the device:
success, failure of `write_all` (nothing appended), or failure of
`sync_data` after a successful `write_all` (the value is appended but an
error is still returned). -/
inductive StepOutcome
  | ok
  | failWrite
  | failSync
deriving DecidableEq

/-- Embedding of `write_to_file_and_wait` (`src/main.rs:112-117`):
returns the new file state, the values appended by this call, and
whether the call returned `Ok` (the sleep has no observable effect). -/
def write_to_file_and_wait (outcome : StepOutcome) (f : FileState) (value : ℕ) :
    FileState × List ℕ × Bool :=
  match outcome with
  | .ok => (write_all f value, [value], true)
  | .failWrite => (f, [], false)
  | .failSync => (write_all f value, [value], false)

/-- Values visited by the transition loops of `kira` (`src/main.rs:100-108`):
`current..=target` ascending when the target is above, the reverse of
`target..=current` when it is below, nothing when they are equal. -/
def plannedWrites (current target : ℕ) : List ℕ :=
  if target > current then List.range' current (target - current + 1)
  else if target < current then (List.range' target (current - target + 1)).reverse
  else []

/-- The `for` loops of `kira` with the `?` operator: each step calls
`write_to_file_and_wait`; the first failing step ends the run with an
error (`false`) and no further step is attempted.  `k` numbers the calls
so that the device oracle `dev` can choose each step's outcome.  Returns
the final file state, the trace of values appended by `write_all`, and
the success flag. -/
def runSteps (dev : ℕ → StepOutcome) : List ℕ → ℕ → FileState → FileState × List ℕ × Bool
  | [], _, f => (f, [], true)
  | v :: rest, k, f =>
    match write_to_file_and_wait (dev k) f v with
    | (f2, ws, true) =>
      let r := runSteps dev rest (k + 1) f2
      (r.1, ws ++ r.2.1, r.2.2)
    | (f2, ws, false) => (f2, ws, false)

/-- Transition phase of `kira` (`src/main.rs:99-108`): create (truncate)
the file, then walk the planned values. -/
def kiraTransition (dev : ℕ → StepOutcome) (current target : ℕ) :
    FileState × List ℕ × Bool :=
  runSteps dev (plannedWrites current target) 0 fileCreate

/-- Device on which every write and sync succeeds. -/
def devOk : ℕ → StepOutcome := fun _ => .ok

/-- Device whose first two steps succeed and whose third write fails;
exercises the abort-on-failure path. -/
def devFailAt2 : ℕ → StepOutcome := fun k => if k < 2 then .ok else .failWrite

/-- Clamp as worded by the spec: values greater than or equal to `hi`
become exactly `hi`, values less than or equal to `lo` become exactly
`lo`, values strictly between are unchanged. -/
def specClamp (v lo hi : ℕ) : ℕ :=
  if v ≥ hi then hi else if v ≤ lo then lo else v

/-- Remainder of a token after one optional leading `+` or `-` sign. -/
def afterSign (cs : List Char) : List Char :=
  match cs with
  | [] => []
  | c :: r => if c = '+' then r else if c = '-' then r else c :: r

/-- Token shape claimed by the spec for acceptance: one optional leading
sign, then a nonempty run of digits whose value fits in `u8`
(`[+-]?[0-9]+` with value at most 255). -/
def claimedShape (s : String) : Bool :=
  !(afterSign s.data).isEmpty && (afterSign s.data).all Char.isDigit
    && digitsToNat (afterSign s.data) ≤ 255

/-- Token shape actually accepted by the interpreter: one optional
leading sign consumed by `parse_input_as_percent`, then one optional
further `+` consumed by `u8::from_str`, then a nonempty run of digits
whose value fits in `u8`. -/
def acceptedShape (s : String) : Bool :=
  !(stripPlus (afterSign s.data)).isEmpty
    && (stripPlus (afterSign s.data)).all Char.isDigit
    && digitsToNat (stripPlus (afterSign s.data)) ≤ 255

/-- Concatenation of the decimal representations of a list of values. -/
def concatReprs (l : List ℕ) : String :=
  l.foldr (fun v acc => toString v ++ acc) ""

/-! ### Supporting lemmas on the input interpreter -/

lemma data_mk (cs : List Char) : (String.mk cs).data = cs := rfl

lemma fromStrU8_isSome (cs : List Char) :
    (fromStrU8 cs).isSome =
      (!(stripPlus cs).isEmpty && (stripPlus cs).all Char.isDigit
        && decide (digitsToNat (stripPlus cs) ≤ 255)) := by
  unfold fromStrU8
  split_ifs with h1 h2 <;> simp_all

lemma fromStrU8_eq_none_iff (cs : List Char) :
    fromStrU8 cs = none ↔
      (stripPlus cs = [] ∨ (stripPlus cs).all Char.isDigit = false
        ∨ 255 < digitsToNat (stripPlus cs)) := by
  unfold fromStrU8
  split_ifs with h1 h2
  · simp only [Bool.and_eq_true, Bool.not_eq_true', List.isEmpty_eq_false] at h1
    simp [h1.1, h1.2, Nat.not_lt.mpr h2]
  · simp only [Bool.and_eq_true, Bool.not_eq_true', List.isEmpty_eq_false] at h1
    simp [Nat.lt_of_not_le h2]
  · simp only [Bool.and_eq_true, Bool.not_eq_true', List.isEmpty_eq_false, not_and] at h1
    constructor
    · intro _
      by_cases he : stripPlus cs = []
      · exact Or.inl he
      · exact Or.inr (Or.inl (by simpa using h1 he))
    · intro _; rfl

lemma parse_mk_plus (rest : List Char) :
    parse_input_as_percent ⟨'+' :: rest⟩
      = (fromStrU8 rest).map fun p => (some true, p) := by
  simp [parse_input_as_percent, data_mk]

lemma parse_mk_minus (rest : List Char) :
    parse_input_as_percent ⟨'-' :: rest⟩
      = (fromStrU8 rest).map fun p => (some false, p) := by
  simp [parse_input_as_percent, data_mk]

lemma parse_mk_other {c : Char} (rest : List Char) (h1 : c ≠ '+') (h2 : c ≠ '-') :
    parse_input_as_percent ⟨c :: rest⟩
      = (fromStrU8 (c :: rest)).map fun p => (none, p) := by
  simp [parse_input_as_percent, data_mk, h1, h2]

/-! ### Claim theorems on the input interpreter -/

/-- C4: a token whose first character is `+` maps to an IncreaseBy
directive with the remainder parsed as a `u8` percentage, a leading `-`
maps to DecreaseBy likewise, and any other token is an Absolute
directive with the whole token parsed; in particular
`parse("+10") = (IncreaseBy, 10)`, `parse("-200") = (DecreaseBy, 200)`
and `parse("10") = (Absolute, 10)`. -/
theorem parse_directive_dispatch :
    (∀ rest : List Char,
      parse_input_as_percent ⟨'+' :: rest⟩
        = (fromStrU8 rest).map fun p => (some true, p)) ∧
    (∀ rest : List Char,
      parse_input_as_percent ⟨'-' :: rest⟩
        = (fromStrU8 rest).map fun p => (some false, p)) ∧
    (∀ (c : Char) (rest : List Char), c ≠ '+' → c ≠ '-' →
      parse_input_as_percent ⟨c :: rest⟩
        = (fromStrU8 (c :: rest)).map fun p => (none, p)) ∧
    parse_input_as_percent "+10" = some (some true, 10) ∧
    parse_input_as_percent "-200" = some (some false, 200) ∧
    parse_input_as_percent "10" = some (none, 10) :=
  ⟨parse_mk_plus, parse_mk_minus, fun _ rest h1 h2 => parse_mk_other rest h1 h2,
    by decide, by decide, by decide⟩

/-- Witness for C4: the Absolute arm at the concrete token `10`. -/
theorem parse_directive_dispatch_witness :
    parse_input_as_percent ⟨['1', '0']⟩
      = (fromStrU8 ['1', '0']).map fun p => (none, p) :=
  parse_directive_dispatch.2.2.1 '1' ['0'] (by decide) (by decide)

/-- C5 counterexample: the token `++5` does not match `[+-]?[0-9]+`, yet
the interpreter accepts it (the first `+` is consumed by
`parse_input_as_percent` and `u8::from_str` consumes a second one), so
the claim that only tokens of that shape are accepted is false. -/
theorem parse_shape_counterexample :
    claimedShape "++5" = false
      ∧ parse_input_as_percent "++5" = some (some true, 5) := by
  constructor <;> decide

/-- C5 (amended): the interpreter accepts exactly the tokens of shape
`[+-]?\+?[0-9]+` whose digit value fits in an unsigned 8-bit integer:
one optional leading sign, then one optional further `+` accepted by
`u8::from_str`, then a nonempty run of digits with value at most 255;
every other token is a parse failure. -/
theorem parse_accepts_iff_shape (s : String) :
    (parse_input_as_percent s).isSome = acceptedShape s := by
  obtain ⟨cs⟩ := s
  cases cs with
  | nil => decide
  | cons c r =>
    by_cases h1 : c = '+'
    · subst h1
      rw [parse_mk_plus]
      simp [acceptedShape, afterSign, data_mk, fromStrU8_isSome]
    · by_cases h2 : c = '-'
      · subst h2
        rw [parse_mk_minus]
        simp [acceptedShape, afterSign, data_mk, fromStrU8_isSome]
      · rw [parse_mk_other r h1 h2]
        simp [acceptedShape, afterSign, data_mk, fromStrU8_isSome, h1, h2]

/-- C6: the interpreter fails with a parse error, propagated to the
caller without retry or defaulting, exactly when the portion handed to
`u8::from_str` fails to parse: it is empty (after the optional `+` sign
accepted by `from_str`), contains a character that is not a decimal
digit, or denotes a value above 255.  In particular `parse("")`,
`parse("five")`, `parse("300")` and `parse("0x110010")` all fail. -/
theorem parse_failure_conditions :
    parse_input_as_percent "" = none ∧
    parse_input_as_percent "five" = none ∧
    parse_input_as_percent "300" = none ∧
    parse_input_as_percent "0x110010" = none ∧
    (∀ cs : List Char, fromStrU8 cs = none ↔
      (stripPlus cs = [] ∨ (stripPlus cs).all Char.isDigit = false
        ∨ 255 < digitsToNat (stripPlus cs))) ∧
    (∀ input : String, parse_input_as_percent input = none ↔
      fromStrU8 (if input.data.head? = some '+' ∨ input.data.head? = some '-'
        then input.data.tail else input.data) = none) := by
  refine ⟨by decide, by decide, by decide, by decide, fromStrU8_eq_none_iff, ?_⟩
  intro input
  unfold parse_input_as_percent
  by_cases h1 : input.data.head? = some '+'
  · simp [h1]
  · by_cases h2 : input.data.head? = some '-'
    · simp [h1, h2]
    · simp [h1, h2]

/-! ### Supporting lemmas on the transition driver -/

lemma runSteps_devOk (l : List ℕ) : ∀ (k : ℕ) (f : FileState),
    runSteps devOk l k f = (l.foldl write_all f, l, true) := by
  induction l with
  | nil => intro k f; rfl
  | cons v rest ih =>
    intro k f
    simp only [runSteps, devOk, write_to_file_and_wait, List.foldl_cons]
    rw [ih (k + 1) (write_all f v)]
    simp

lemma runSteps_content (dev : ℕ → StepOutcome) (l : List ℕ) : ∀ (k : ℕ) (f : FileState),
    (runSteps dev l k f).1.content = f.content ++ concatReprs (runSteps dev l k f).2.1 := by
  induction l with
  | nil => intro k f; simp [runSteps, concatReprs]
  | cons v rest ih =>
    intro k f
    cases hdev : dev k with
    | ok =>
      simp only [runSteps, hdev, write_to_file_and_wait]
      rw [ih (k + 1) (write_all f v)]
      simp [concatReprs, write_all, String.append_assoc]
    | failWrite =>
      simp [runSteps, hdev, write_to_file_and_wait, concatReprs]
    | failSync =>
      simp [runSteps, hdev, write_to_file_and_wait, concatReprs, write_all,
        String.append_assoc]

lemma runSteps_first_failure (dev : ℕ → StepOutcome) (l : List ℕ) :
    ∀ (k k0 : ℕ) (f : FileState),
      (∀ j, j < k → dev (k0 + j) = .ok) → dev (k0 + k) ≠ .ok → k < l.length →
      (runSteps dev l k0 f).2.1
          = l.take k ++ (l.drop k).take (if dev (k0 + k) = .failSync then 1 else 0) ∧
      (runSteps dev l k0 f).2.2 = false := by
  induction l with
  | nil => intro k k0 f _ _ hk; simp at hk
  | cons v rest ih =>
    intro k k0 f hok hfail hk
    cases k with
    | zero =>
      simp only [Nat.add_zero] at hfail ⊢
      by_cases hdev : dev k0 = .failSync
      · simp [runSteps, hdev, write_to_file_and_wait]
      · have hdev2 : dev k0 = .failWrite := by
          cases h2 : dev k0 <;> simp_all
        simp [runSteps, hdev2, write_to_file_and_wait]
    | succ k2 =>
      have h0 : dev k0 = .ok := by simpa using hok 0 (Nat.succ_pos k2)
      have harith : k0 + (k2 + 1) = k0 + 1 + k2 := by omega
      rw [harith] at hfail ⊢
      have hrec := ih k2 (k0 + 1) (write_all f v)
        (fun j hj => by
          have := hok (j + 1) (by omega)
          rwa [show k0 + (j + 1) = k0 + 1 + j by omega] at this)
        hfail
        (by simpa using Nat.lt_of_succ_lt_succ hk)
      simp only [runSteps, h0, write_to_file_and_wait]
      refine ⟨?_, hrec.2⟩
      simp only [List.take_succ_cons, List.drop_succ_cons, hrec.1]
      simp

/-! ### Claim theorems on the transition driver -/

/-- C3: on a device where every step succeeds, the transition writes
exactly the integers from `current` to `target`, ascending when
`target > current`, descending when `target < current`, and performs no
write when they are equal; in particular the walk from 0 to 3 writes
`[0, 1, 2, 3]` and the walk from 5 to 2 writes `[5, 4, 3, 2]`.  The
list order is the write-and-flush order: each element is written and
synced by its own `write_to_file_and_wait` call before the next one
starts. -/
theorem transition_visits_every_value (current target : ℕ) :
    (target > current → (kiraTransition devOk current target).2.1
        = (List.range (target - current + 1)).map (current + ·)) ∧
    (target < current → (kiraTransition devOk current target).2.1
        = (List.range (current - target + 1)).map (fun i => current - i)) ∧
    (target = current → (kiraTransition devOk current target).2.1 = []) ∧
    (kiraTransition devOk current target).2.2 = true ∧
    (kiraTransition devOk 0 3).2.1 = [0, 1, 2, 3] ∧
    (kiraTransition devOk 5 2).2.1 = [5, 4, 3, 2] := by
  have hrun : kiraTransition devOk current target
      = ((plannedWrites current target).foldl write_all fileCreate,
          plannedWrites current target, true) := by
    unfold kiraTransition
    exact runSteps_devOk _ 0 fileCreate
  refine ⟨?_, ?_, ?_, ?_, by decide, by decide⟩
  · intro h
    rw [hrun]
    show plannedWrites current target = _
    unfold plannedWrites
    rw [if_pos h, List.range_eq_range', List.map_add_range']
    simp
  · intro h
    rw [hrun]
    show plannedWrites current target = _
    unfold plannedWrites
    rw [if_neg (by omega), if_pos h, List.reverse_range']
    exact List.map_congr_left fun i _ => by omega
  · intro h
    rw [hrun]
    show plannedWrites current target = []
    unfold plannedWrites
    rw [if_neg (by omega), if_neg (by omega)]
  · rw [hrun]

/-- Witness for C3: the ascending case instantiated at the walk 0 → 3. -/
theorem transition_visits_every_value_witness :
    3 > 0 ∧ (kiraTransition devOk 0 3).2.1 = (List.range (3 - 0 + 1)).map (0 + ·) :=
  ⟨by decide, (transition_visits_every_value 0 3).1 (by decide)⟩

/-- C7: if the device makes step `k` the first failing
`write_to_file_and_wait` call, the transition ends with an error
(`false`, the `?` operator propagates it to the caller, nothing is
retried), the values of all earlier steps remain written in order, and
no value after the failing step is written: the trace is exactly the
first `k` planned values, plus the `k`-th one exactly when the failure
happened in `sync_data` after a successful `write_all`. -/
theorem transition_aborts_on_first_failure (dev : ℕ → StepOutcome)
    (current target k : ℕ)
    (hok : ∀ j, j < k → dev j = StepOutcome.ok)
    (hfail : dev k ≠ StepOutcome.ok)
    (hk : k < (plannedWrites current target).length) :
    (kiraTransition dev current target).2.2 = false ∧
    (kiraTransition dev current target).2.1
      = (plannedWrites current target).take k
        ++ ((plannedWrites current target).drop k).take
            (if dev k = StepOutcome.failSync then 1 else 0) := by
  have h := runSteps_first_failure dev (plannedWrites current target) k 0 fileCreate
    (fun j hj => by simpa using hok j hj) (by simpa using hfail) hk
  simp only [Nat.zero_add] at h
  unfold kiraTransition
  exact ⟨h.2, h.1⟩

/-- Witness for C7: walking 0 → 5 on a device whose third write fails
stops after writing `[0, 1]` and reports the error. -/
theorem transition_aborts_on_first_failure_witness :
    (kiraTransition devFailAt2 0 5).2.2 = false ∧
    (kiraTransition devFailAt2 0 5).2.1
      = (plannedWrites 0 5).take 2
        ++ ((plannedWrites 0 5).drop 2).take
            (if devFailAt2 2 = StepOutcome.failSync then 1 else 0) :=
  transition_aborts_on_first_failure devFailAt2 0 5 2
    (fun j hj => by interval_cases j <;> rfl) (by decide) (by decide)

/-- C10: all writes of one transition go through the single handle
opened (with truncation) by `File::create`, and each step appends the
decimal representation at the cursor, so the final byte content of the
device file is the concatenation of the decimal representations of
every value written, in order — on any device — and for a completed
transition it is the concatenation over every visited value, e.g.
`"0123"` for the walk 0 → 3, not just the decimal string `"3"` of the
final target. -/
theorem transition_file_content (current target : ℕ) :
    (∀ dev : ℕ → StepOutcome,
      (kiraTransition dev current target).1.content
        = concatReprs (kiraTransition dev current target).2.1) ∧
    (current ≠ target →
      (kiraTransition devOk current target).1.content
        = concatReprs (plannedWrites current target)) ∧
    (kiraTransition devOk 0 3).1.content = "0123" ∧
    toString (3 : ℕ) = "3" ∧ ("0123" : String) ≠ "3" := by
  refine ⟨?_, ?_, by decide, by decide, by decide⟩
  · intro dev
    have h := runSteps_content dev (plannedWrites current target) 0 fileCreate
    simpa [kiraTransition, fileCreate] using h
  · intro _
    have h := runSteps_content devOk (plannedWrites current target) 0 fileCreate
    rw [runSteps_devOk (plannedWrites current target) 0 fileCreate] at h
    unfold kiraTransition
    rw [runSteps_devOk (plannedWrites current target) 0 fileCreate]
    simpa [fileCreate] using h

/-- Witness for C10: the completed walk 0 → 3 instantiated concretely. -/
theorem transition_file_content_witness :
    (0 : ℕ) ≠ 3 ∧ (kiraTransition devOk 0 3).1.content = concatReprs (plannedWrites 0 3) :=
  ⟨by decide, (transition_file_content 0 3).2.1 (by decide)⟩

/-! ### Supporting lemmas on the f32 model -/

lemma rnF32_zero : rnF32 0 = 0 := by
  simp [rnF32]

lemma rnF32_eq_self {q : ℚ} (hq : 0 < q) (z : ℤ)
    (hz : q * (2 : ℚ) ^ (23 - Int.log 2 q) = (z : ℚ)) : rnF32 q = q := by
  unfold rnF32
  have hhalf : ⌊(1 / 2 : ℚ)⌋ = 0 := by norm_num
  rw [if_neg (not_le.mpr hq), hz, add_comm, Int.floor_add_int, hhalf, zero_add]
  rw [← hz, mul_assoc, ← zpow_add₀ (two_ne_zero : (2 : ℚ) ≠ 0)]
  have hexp : 23 - Int.log 2 q + (Int.log 2 q - 23) = 0 := by ring
  rw [hexp, zpow_zero, mul_one]

lemma rnF32_natCast (n : ℕ) (hn : n < 16777216) : rnF32 (n : ℚ) = (n : ℚ) := by
  rcases Nat.eq_zero_or_pos n with h0 | h0
  · subst h0; simpa using rnF32_zero
  · have hq : (0 : ℚ) < (n : ℚ) := by exact_mod_cast h0
    have he : Int.log 2 ((n : ℕ) : ℚ) = (Nat.log 2 n : ℤ) := Int.log_natCast 2 n
    have hpow : (16777216 : ℕ) = 2 ^ 24 := by norm_num
    have h24 : Nat.log 2 n < 24 := Nat.log_lt_of_lt_pow (by omega) (hpow ▸ hn)
    apply rnF32_eq_self hq ((n : ℤ) * 2 ^ (23 - Nat.log 2 n))
    rw [he]
    have h23 : (23 : ℤ) - (Nat.log 2 n : ℤ) = ((23 - Nat.log 2 n : ℕ) : ℤ) := by omega
    rw [h23, zpow_natCast]
    push_cast
    ring

lemma rnF32_bounds {q : ℚ} (hq : 0 < q) :
    q - (2 : ℚ) ^ (Int.log 2 q - 24) ≤ rnF32 q ∧
      rnF32 q ≤ q + (2 : ℚ) ^ (Int.log 2 q - 24) := by
  unfold rnF32
  rw [if_neg (not_le.mpr hq)]
  have hc : (0 : ℚ) < (2 : ℚ) ^ (Int.log 2 q - 23) := zpow_pos (by norm_num) _
  have hmul : (2 : ℚ) ^ (23 - Int.log 2 q) * (2 : ℚ) ^ (Int.log 2 q - 23) = 1 := by
    rw [← zpow_add₀ (two_ne_zero : (2 : ℚ) ≠ 0)]
    norm_num
  have hhalf : (1 / 2 : ℚ) * (2 : ℚ) ^ (Int.log 2 q - 23) = (2 : ℚ) ^ (Int.log 2 q - 24) := by
    have h1 : Int.log 2 q - 23 = 1 + (Int.log 2 q - 24) := by ring
    rw [h1, zpow_add₀ (two_ne_zero : (2 : ℚ) ≠ 0), zpow_one]
    ring
  have hxq : q * (2 : ℚ) ^ (23 - Int.log 2 q) * (2 : ℚ) ^ (Int.log 2 q - 23) = q := by
    rw [mul_assoc, hmul, mul_one]
  set x := q * (2 : ℚ) ^ (23 - Int.log 2 q) with hx
  have h1 : (⌊x + 1 / 2⌋ : ℚ) ≤ x + 1 / 2 := Int.floor_le _
  have h2 : x - 1 / 2 ≤ (⌊x + 1 / 2⌋ : ℚ) := by
    have := Int.lt_floor_add_one (x + 1 / 2)
    linarith
  constructor
  · calc q - (2 : ℚ) ^ (Int.log 2 q - 24)
        = (x - 1 / 2) * (2 : ℚ) ^ (Int.log 2 q - 23) := by rw [sub_mul, hxq, hhalf]
      _ ≤ (⌊x + 1 / 2⌋ : ℚ) * (2 : ℚ) ^ (Int.log 2 q - 23) :=
        mul_le_mul_of_nonneg_right h2 hc.le
  · calc (⌊x + 1 / 2⌋ : ℚ) * (2 : ℚ) ^ (Int.log 2 q - 23)
        ≤ (x + 1 / 2) * (2 : ℚ) ^ (Int.log 2 q - 23) :=
        mul_le_mul_of_nonneg_right h1 hc.le
      _ = q + (2 : ℚ) ^ (Int.log 2 q - 24) := by rw [add_mul, hxq, hhalf]

lemma log_div100_le (n : ℕ) (h0 : 0 < n) (hn : n ≤ 16711425) :
    Int.log 2 ((n : ℚ) / 100) ≤ 17 := by
  have hn0 : (0 : ℚ) < (n : ℚ) := by exact_mod_cast h0
  have hq : (0 : ℚ) < (n : ℚ) / 100 := by positivity
  have hlt : (n : ℚ) / 100 < ((2 : ℕ) : ℚ) ^ (18 : ℤ) := by
    have hn1 : (n : ℚ) ≤ 16711425 := by exact_mod_cast hn
    have h2 : ((2 : ℕ) : ℚ) ^ (18 : ℤ) = 262144 := by norm_num
    rw [h2]
    linarith
  have := (Int.lt_zpow_iff_log_lt (by norm_num : 1 < 2) hq).mp hlt
  omega

lemma floor_rnF32_div100 (n : ℕ) (hn : n ≤ 16711425) :
    ⌊rnF32 ((n : ℚ) / 100)⌋ = ((n / 100 : ℕ) : ℤ) := by
  rcases Nat.eq_zero_or_pos n with h0 | h0
  · subst h0
    norm_num [rnF32_zero]
  · have hn0 : (0 : ℚ) < (n : ℚ) := by exact_mod_cast h0
    have hq : (0 : ℚ) < (n : ℚ) / 100 := by positivity
    have he17 := log_div100_le n h0 hn
    have hδ : (2 : ℚ) ^ (Int.log 2 ((n : ℚ) / 100) - 24) ≤ 1 / 128 := by
      have hb : (2 : ℚ) ^ (Int.log 2 ((n : ℚ) / 100) - 24) ≤ (2 : ℚ) ^ (-7 : ℤ) :=
        zpow_le_zpow_right₀ (by norm_num) (by omega)
      have hv : (2 : ℚ) ^ (-7 : ℤ) = 1 / 128 := by norm_num
      linarith
    obtain ⟨hlo, hhi⟩ := rnF32_bounds hq
    by_cases hdvd : 100 ∣ n
    · obtain ⟨k, hk⟩ := hdvd
      have hdiv : n / 100 = k := by omega
      have hqk : (n : ℚ) / 100 = ((k : ℕ) : ℚ) := by
        subst hk
        have hcast : ((100 * k : ℕ) : ℚ) = 100 * (k : ℚ) := by push_cast; ring
        rw [hcast, mul_div_cancel_left₀ _ (by norm_num : (100 : ℚ) ≠ 0)]
      rw [hdiv, hqk, rnF32_natCast k (by omega), Int.floor_natCast]
    · have hr1 : 1 ≤ n % 100 := by omega
      have hr99 : n % 100 ≤ 99 := by omega
      have hsplit : (n : ℚ) / 100 = ((n / 100 : ℕ) : ℚ) + ((n % 100 : ℕ) : ℚ) / 100 := by
        have hnat : n = 100 * (n / 100) + n % 100 := by omega
        calc (n : ℚ) / 100 = ((100 * (n / 100) + n % 100 : ℕ) : ℚ) / 100 := by rw [← hnat]
          _ = _ := by push_cast; ring
      rw [Int.floor_eq_iff]
      have hr1q : (1 : ℚ) ≤ ((n % 100 : ℕ) : ℚ) := by exact_mod_cast hr1
      have hr99q : ((n % 100 : ℕ) : ℚ) ≤ 99 := by exact_mod_cast hr99
      constructor
      · rw [Int.cast_natCast]
        linarith [hlo, hδ, hsplit]
      · rw [Int.cast_natCast]
        linarith [hhi, hδ, hsplit]

lemma rnF32_div100_no_tie (n : ℕ) (h0 : 0 < n) (hn : n ≤ 16711425) (z : ℤ) :
    (n : ℚ) / 100 * (2 : ℚ) ^ (23 - Int.log 2 ((n : ℚ) / 100)) ≠ (z : ℚ) + 1 / 2 := by
  intro heq
  have he17 := log_div100_le n h0 hn
  obtain ⟨m2, hm2⟩ : ∃ m2 : ℕ, 23 - Int.log 2 ((n : ℚ) / 100) = ((m2 : ℤ) + 2) :=
    ⟨(23 - Int.log 2 ((n : ℚ) / 100)).toNat - 2, by omega⟩
  rw [hm2] at heq
  have hsplit : ((m2 : ℤ) + 2) = ((m2 + 2 : ℕ) : ℤ) := by push_cast; ring
  rw [hsplit, zpow_natCast] at heq
  have h100 : (n : ℚ) * 2 ^ (m2 + 2) = 100 * (z : ℚ) + 50 := by
    field_simp at heq
    linarith
  have hZ : (n : ℤ) * 2 ^ (m2 + 2) = 100 * z + 50 := by exact_mod_cast h100
  have hX : (n : ℤ) * 2 ^ (m2 + 2) = 4 * ((n : ℤ) * 2 ^ m2) := by
    rw [pow_add]; ring
  set Y := (n : ℤ) * 2 ^ m2 with hY
  omega

lemma float_delta (m p : ℕ) (hm : m ≤ 65535) (hp : p ≤ 255) :
    f32toU16 (f32div (f32mul (f32ofNat m) (f32ofNat p)) (f32ofNat 100))
      = min 65535 (m * p / 100) := by
  have hmp : m * p ≤ 16711425 := by
    calc m * p ≤ 65535 * 255 := Nat.mul_le_mul hm hp
      _ = 16711425 := by norm_num
  have h1 : f32ofNat m = (m : ℚ) := rnF32_natCast m (by omega)
  have h2 : f32ofNat p = (p : ℚ) := rnF32_natCast p (by omega)
  have h3 : f32ofNat 100 = ((100 : ℕ) : ℚ) := rnF32_natCast 100 (by omega)
  unfold f32mul f32div f32toU16
  rw [h1, h2, h3]
  have h4 : (m : ℚ) * (p : ℚ) = ((m * p : ℕ) : ℚ) := by push_cast; ring
  rw [h4, rnF32_natCast (m * p) (by omega)]
  have h5 : ((m * p : ℕ) : ℚ) / ((100 : ℕ) : ℚ) = ((m * p : ℕ) : ℚ) / 100 := by norm_num
  rw [h5, floor_rnF32_div100 (m * p) hmp, Int.toNat_ofNat]

lemma calc_none_eq (p current m mn : ℕ) (hp : p ≤ 255) (hm : m ≤ 65535) :
    calculate_target_value none p current m mn = specClamp (m * p / 100) mn m := by
  simp only [calculate_target_value]
  rw [float_delta m p hm hp]
  rcases le_or_lt (m * p / 100) 65535 with h | h
  · rw [min_eq_right h]
    rfl
  · rw [min_eq_left (by omega)]
    unfold specClamp
    rw [if_pos (by omega : 65535 ≥ m), if_pos (by omega : m * p / 100 ≥ m)]

lemma calc_inc_eq (p c m mn : ℕ) (hp : p ≤ 255) (hc : c ≤ 65535) (hm : m ≤ 65535) :
    calculate_target_value (some true) p c m mn
      = specClamp (saturatingAdd c (m * p / 100)) mn m := by
  simp only [calculate_target_value]
  rw [float_delta m p hm hp]
  have hsat : saturatingAdd c (min 65535 (m * p / 100)) = saturatingAdd c (m * p / 100) := by
    unfold saturatingAdd
    omega
  rw [hsat]
  rfl

lemma calc_dec_eq (p c m mn : ℕ) (hp : p ≤ 255) (hc : c ≤ 65535) (hm : m ≤ 65535) :
    calculate_target_value (some false) p c m mn
      = specClamp (c - m * p / 100) mn m := by
  simp only [calculate_target_value]
  rw [float_delta m p hm hp]
  have hsub : c - min 65535 (m * p / 100) = c - m * p / 100 := by omega
  rw [hsub]
  rfl

/-! ### Claim theorems on the target calculator -/

/-- C1: for every `u8` percentage, every `u16` max and every min below
it, an Absolute directive yields `clamp(delta, min, max)` with
`delta = floor(max * percent / 100)`; the `f32` computation of the
source, truncated toward zero, is exactly that integer floor (second
conjunct, stated on the exact model of the float pipeline); and for
percentages up to 100 with min 0 the result is exactly the floor. -/
theorem absolute_percent_target (p m mn current : ℕ)
    (hp : p ≤ 255) (hm : m ≤ 65535) (_hmn : mn ≤ m) :
    calculate_target_value none p current m mn = specClamp (m * p / 100) mn m ∧
    ⌊rnF32 (((m * p : ℕ) : ℚ) / 100)⌋ = ((m * p / 100 : ℕ) : ℤ) ∧
    (p ≤ 100 → calculate_target_value none p current m 0 = m * p / 100) := by
  refine ⟨calc_none_eq p current m mn hp hm, ?_, ?_⟩
  · exact floor_rnF32_div100 (m * p)
      (le_trans (Nat.mul_le_mul hm hp) (by norm_num))
  · intro hp100
    rw [calc_none_eq p current m 0 hp hm]
    have hd : m * p / 100 ≤ m := by
      have hmono : m * p ≤ m * 100 := Nat.mul_le_mul_left m hp100
      omega
    unfold specClamp
    split_ifs <;> omega

/-- Witness for C1: percentage 77 on a device with max 4438 gives
`floor(4438 * 77 / 100) = 3417`. -/
theorem absolute_percent_target_witness :
    77 ≤ 255 ∧ 4438 ≤ 65535 ∧ (0 : ℕ) ≤ 4438 ∧ 77 ≤ 100 ∧
      calculate_target_value none 77 0 4438 0 = 4438 * 77 / 100 :=
  ⟨by decide, by decide, by decide, by decide,
    (absolute_percent_target 77 4438 0 0 (by decide) (by decide) (by decide)).2.2 (by decide)⟩

/-- C2: an IncreaseBy directive yields
`clamp(saturating_add(current, delta), min, max)` and a DecreaseBy
directive yields `clamp(saturating_sub(current, delta), min, max)` with
`delta = floor(max * percent / 100)`; the addition saturates at the
`u16` maximum instead of wrapping, the `ℕ` subtraction saturates at
zero, and the clamp maps values at or above max to exactly max, values
at or below min to exactly min, and keeps values strictly between. -/
theorem relative_percent_target (p c m mn : ℕ)
    (hp : p ≤ 255) (hc : c ≤ 65535) (hm : m ≤ 65535) (hmn : mn ≤ m) :
    calculate_target_value (some true) p c m mn
        = specClamp (saturatingAdd c (m * p / 100)) mn m ∧
    calculate_target_value (some false) p c m mn
        = specClamp (c - m * p / 100) mn m ∧
    (∀ v, m ≤ v → specClamp v mn m = m) ∧
    (∀ v, v ≤ mn → specClamp v mn m = mn) ∧
    (∀ v, mn < v → v < m → specClamp v mn m = v) := by
  refine ⟨calc_inc_eq p c m mn hp hc hm, calc_dec_eq p c m mn hp hc hm, ?_, ?_, ?_⟩
  · intro v hv; unfold specClamp; split_ifs <;> omega
  · intro v hv; unfold specClamp; split_ifs <;> omega
  · intro v hv1 hv2; unfold specClamp; split_ifs <;> omega

/-- Witness for C2: increasing by 22% from 10 on a 0–100 device gives
`clamp(saturating_add(10, 22), 0, 100)`. -/
theorem relative_percent_target_witness :
    22 ≤ 255 ∧ 10 ≤ 65535 ∧ 100 ≤ 65535 ∧ (0 : ℕ) ≤ 100 ∧
      calculate_target_value (some true) 22 10 100 0
        = specClamp (saturatingAdd 10 (100 * 22 / 100)) 0 100 :=
  ⟨by decide, by decide, by decide, by decide,
    (relative_percent_target 22 10 100 0 (by decide) (by decide) (by decide) (by decide)).1⟩

/-- C8: with no argument the computed target is the device maximum, and
this agrees with an Absolute directive at percentage 100: for every
`u16` max, `calculate_target_value none 100 current max 0 = max`. -/
theorem no_argument_full_brightness (current m : ℕ) (hm : m ≤ 65535) :
    kiraTarget none current m 0 = some m ∧
    calculate_target_value none 100 current m 0 = m := by
  refine ⟨rfl, ?_⟩
  rw [calc_none_eq 100 current m 0 (by norm_num) hm]
  have h100 : m * 100 / 100 = m := by omega
  rw [h100]
  unfold specClamp
  split_ifs <;> omega

/-- Witness for C8: a device with max 4438. -/
theorem no_argument_full_brightness_witness :
    4438 ≤ 65535 ∧ calculate_target_value none 100 0 4438 0 = 4438 :=
  ⟨by decide, (no_argument_full_brightness 0 4438 (by decide)).2⟩

/-- C9: relative directives move the target monotonically in their
direction — for any percentage, IncreaseBy never goes below the current
value and DecreaseBy never above it — and the result always lies in
`[min, max]`. -/
theorem relative_directives_monotone (p c m mn : ℕ)
    (hm : m ≤ 65535) (h1 : mn ≤ c) (h2 : c ≤ m) :
    c ≤ calculate_target_value (some true) p c m mn ∧
    calculate_target_value (some false) p c m mn ≤ c ∧
    mn ≤ calculate_target_value (some true) p c m mn ∧
    calculate_target_value (some true) p c m mn ≤ m ∧
    mn ≤ calculate_target_value (some false) p c m mn ∧
    calculate_target_value (some false) p c m mn ≤ m := by
  simp only [calculate_target_value, Bool.false_eq_true, if_true, if_false]
  set v := f32toU16 (f32div (f32mul (f32ofNat m) (f32ofNat p)) (f32ofNat 100)) with hv
  unfold saturatingAdd
  refine ⟨?_, ?_, ?_, ?_, ?_, ?_⟩ <;> split_ifs <;> omega

/-- Witness for C9: increasing by 22% from 10 on a 0–100 device stays
at or above 10. -/
theorem relative_directives_monotone_witness :
    100 ≤ 65535 ∧ (0 : ℕ) ≤ 10 ∧ 10 ≤ 100 ∧
      10 ≤ calculate_target_value (some true) 22 10 100 0 :=
  ⟨by decide, by decide, by decide,
    (relative_directives_monotone 22 10 100 0 (by decide) (by decide) (by decide)).1⟩

end Kira
